import Mathlib

/-!
Verification of the stage-based execution engine of the `ai-trading-agents`
repository: a shallow embedding of the consolidation protocol
(`tradingagents/langgraph/builder_consolidate.py`), the decision synthesizer
(`finalize_decision`), the lightweight DAG scheduler
(`tradingagents/langgraph/builder.py`, `SimpleGraph`), and the persona
response parser (`tradingagents/langgraph/personas/base_persona.py`).

Python dictionaries are modelled as insertion-ordered association lists over
a JSON-like value type `Val`; machine integers are `Int` (Python ints are
unbounded); fallible node functions return `Except`.
-/

namespace TA

/-- JSON-like value, modelling the Python values stored in the shared run
state: `None`, booleans, numbers, strings, lists and (insertion-ordered)
dicts.  Numbers are modelled as `Int`; the only float the verified code ever
constructs is the literal default `0.0` (modelled as `Val.num 0`), every
other numeric value is merely copied around. -/
inductive Val where
  | null : Val
  | bool (b : Bool) : Val
  | num (n : Int) : Val
  | str (s : String) : Val
  | list (xs : List Val) : Val
  | dict (kvs : List (String × Val)) : Val

/-- A Python dict: insertion-ordered association list (keys unique in any
dict actually built by the program). -/
abbrev Assoc := List (String × Val)

/-- First binding of `k`, i.e. Python `d[k]` / `d.get(k)` on a dict with
unique keys (polymorphic so the same model serves the scheduler's
name-to-node registry). -/
def aget? {α : Type} (d : List (String × α)) (k : String) : Option α :=
  match d with
  | [] => none
  | (k', v) :: rest => if k' = k then some v else aget? rest k

/-- Python `d.get(k, dflt)`. -/
def dgetD (d : Assoc) (k : String) (dflt : Val) : Val :=
  match aget? d k with
  | some v => v
  | none => dflt

/-- Python `d[k] = v` on an insertion-ordered dict: replace in place if the
key is present, otherwise append. -/
def dictSet {α : Type} (d : List (String × α)) (k : String) (v : α) :
    List (String × α) :=
  match aget? d k with
  | some _ => d.map (fun kv => if kv.1 = k then (k, v) else kv)
  | none => d ++ [(k, v)]

/-- Python truthiness of a value (`bool(v)`). -/
def truthy : Val → Bool
  | .null => false
  | .bool b => b
  | .num n => n != 0
  | .str s => s ≠ ""
  | .list xs => !xs.isEmpty
  | .dict kvs => !kvs.isEmpty

/-- Python `v.get(k)` where `v` is expected to be a dict: `None` when the
key is absent.  (On a non-dict Python would raise `AttributeError`; the
verified call sites only reach this after an `isinstance(v, dict)` guard or
on values the state schema constrains to dicts.) -/
def vget (v : Val) (k : String) : Val :=
  match v with
  | .dict d => dgetD d k .null
  | _ => .null

/-- Python `v.get(k, dflt)` on a dict-shaped value. -/
def vgetD (v : Val) (k : String) (dflt : Val) : Val :=
  match v with
  | .dict d => dgetD d k dflt
  | _ => dflt

/-- Python `int(v)` on the values that reach it in the verified code
(numbers; `int()` of a bool is 0/1).  Other shapes raise in Python and are
outside every claim's inputs. -/
def toInt : Val → Int
  | .num n => n
  | .bool b => if b then 1 else 0
  | _ => 0

/-- Python `a or b` (value-returning, truthiness-based). -/
def pyOr (a b : Val) : Val :=
  if truthy a then a else b

/-- Python `dict.update(delta)`: fold `d[k] = v` over the delta, in order.
This is the state-merge step of `SimpleGraph.run`
(`state.update(result)`). -/
def update (st delta : Assoc) : Assoc :=
  delta.foldl (fun acc kv => dictSet acc kv.1 kv.2) st

/-- `k.startswith(tag)` for the three-character namespace tags
`"m__"` / `"a__"` used by `consolidate_state`. -/
def hasTag (tag k : String) : Bool :=
  tag.data.isPrefixOf k.data

/-- `k.split("__", 1)[1]` for a key carrying a three-character namespace tag
(`"m__market" ↦ "market"`, `"a__Trader" ↦ "Trader"`). -/
def stripTag (k : String) : String :=
  String.mk (k.data.drop 3)

/-! ## `consolidate_state`
(`tradingagents/langgraph/builder_consolidate.py`, lines 7–48.)
The source iterates `state.items()` once, routing `m__*` values into
`data_sources`, `a__*` values into `analyses`, and accumulating each
analysis Result's nested `usage` into the running token counters seeded
from `state["token_usage"]`. -/

/-- Accumulator of `consolidate_state`'s single loop: the `data_sources` and
`analyses` dicts under construction and the two fields of
`usage_accumulator`. -/
structure ConsAcc where
  ds : Assoc
  an : Assoc
  p : Int
  c : Int

/-- One iteration of the `for k, v in state.items()` loop of
`consolidate_state`. -/
def consStep (acc : ConsAcc) (kv : String × Val) : ConsAcc :=
  if hasTag "m__" kv.1 then
    { acc with ds := dictSet acc.ds (stripTag kv.1) kv.2 }
  else if hasTag "a__" kv.1 then
    let acc' := { acc with an := dictSet acc.an (stripTag kv.1) kv.2 }
    match kv.2 with
    | .dict rv =>
      match aget? rv "usage" with
      | some usage =>
        if truthy usage then
          { acc' with
            p := acc'.p + toInt (vgetD usage "prompt_tokens" (.num 0)),
            c := acc'.c + toInt (vgetD usage "completion_tokens" (.num 0)) }
        else acc'
      | none => acc'
    | _ => acc'
  else acc

/-- `consolidate_state(state)`: build fresh `data_sources`/`analyses` from
the transient namespaced slots, accumulate token usage on top of the
state's current `token_usage`, and return the small result dict
(`data_sources` and `analyses` only when non-empty, `token_usage`
always). -/
def consolidate_state (state : Assoc) : Assoc :=
  let tu := dgetD state "token_usage" (Val.dict [])
  let init : ConsAcc :=
    { ds := [], an := [],
      p := toInt (vgetD tu "prompt" (.num 0)),
      c := toInt (vgetD tu "completion" (.num 0)) }
  let acc := state.foldl consStep init
  (if acc.ds.isEmpty then [] else [("data_sources", Val.dict acc.ds)]) ++
  (if acc.an.isEmpty then [] else [("analyses", Val.dict acc.an)]) ++
  [("token_usage",
    Val.dict [("prompt", Val.num acc.p), ("completion", Val.num acc.c)])]

/-! ## `finalize_decision`
(`tradingagents/langgraph/builder_consolidate.py`, lines 51–82.) -/

/-- The fixed key list of `finalize_decision`'s raw-payload fallback loop. -/
def fallbackKeys : List String :=
  ["TechnicalAnalyst", "ValuationAnalyst", "EventAnalyst", "MacroAnalyst",
   "FlowAnalyst", "BullResearcher", "BearResearcher", "ResearchReferee",
   "RiskManager", "Trader", "RiskJudge"]

/-- The `a__*` fields declared on `GraphState`
(`tradingagents/langgraph/state.py`): `hasattr(gs, raw_key)` is true for
these even when the input state omits them (they default to `{}`). -/
def declaredASlots : List String :=
  ["a__TechnicalAnalyst", "a__FundamentalAnalyst", "a__SentimentAnalyst",
   "a__MacroAnalyst", "a__FlowAnalyst", "a__Synthesis", "a__RiskAssessment",
   "a__ExecutionPlan", "a__FinalOversight"]

/-- `getattr(gs, raw_key)` guarded by `hasattr(gs, raw_key)`: the value from
the input state if present, the declared default `{}` for declared slots,
absent (`hasattr` false) otherwise. -/
def rawSlot (state : Assoc) (raw : String) : Option Val :=
  match aget? state raw with
  | some v => some v
  | none => if declaredASlots.contains raw then some (Val.dict []) else none

/-- One iteration of `finalize_decision`'s fallback loop:
`if key not in analyses and hasattr(gs, raw_key): data = getattr(gs,
raw_key); if data: analyses[key] = data`. -/
def fallbackStep (state : Assoc) (an : Assoc) (key : String) : Assoc :=
  if (aget? an key).isSome then an
  else
    match rawSlot state ("a__" ++ key) with
    | none => an
    | some data => if truthy data then dictSet an key data else an

/-- `finalize_decision(state)`: normalize the latest governance persona
payloads into the canonical decision dict, with the
RiskJudge → Trader → ResearchReferee precedence chain and per-field
defaults.  `gs.analyses` is the state's `analyses` field (default `{}`);
`gs.ticker` is the immutable run input. -/
def finalize_decision (state : Assoc) : Assoc :=
  let analyses0 : Assoc :=
    match dgetD state "analyses" (Val.dict []) with
    | .dict a => a
    | _ => []
  let analyses := fallbackKeys.foldl (fallbackStep state) analyses0
  let risk_judge := pyOr (dgetD analyses "RiskJudge" .null) (Val.dict [])
  let trader := pyOr (dgetD analyses "Trader" .null) (Val.dict [])
  let referee := pyOr (dgetD analyses "ResearchReferee" .null) (Val.dict [])
  let source := pyOr risk_judge (pyOr trader referee)
  let decision : Val := Val.dict
    [("ticker", dgetD state "ticker" (Val.str "")),
     ("stance", vgetD source "stance" (Val.str "neutral")),
     ("decision", pyOr (vget source "final_action")
        (vgetD source "decision" (Val.str "hold"))),
     ("rationale", pyOr (vget source "rationale")
        (vgetD source "summary" (Val.str ""))),
     ("confidence", vgetD source "confidence"
        (vgetD referee "confidence" (Val.num 0))),
     ("source_persona", Val.str
        (if truthy risk_judge then "RiskJudge"
         else if truthy trader then "Trader" else "ResearchReferee"))]
  [("decision", decision)]

/-! ## Spec-side decision synthesizer (for the refinement claim C1) -/

/-- `true` exactly on values of dict shape. -/
def isDictVal : Val → Bool
  | .dict _ => true
  | _ => false

/-- Spec-side notion of a non-empty Result: Results are open key-value maps,
and a Result is non-empty when it carries at least one entry; an absent
Result is empty. -/
def specNonEmpty : Val → Bool
  | .dict kvs => !kvs.isEmpty
  | _ => false

/-- Spec-side source selection: examine, in fixed precedence order, the
governance Results `analyses["RiskJudge"]`, `analyses["Trader"]`,
`analyses["ResearchReferee"]`; the first non-empty one becomes the source,
paired with the name of the governance unit that supplied it. -/
def specSource (A : Assoc) : Val × String :=
  let rj := dgetD A "RiskJudge" .null
  let tr := dgetD A "Trader" .null
  let rf := dgetD A "ResearchReferee" .null
  if specNonEmpty rj then (rj, "RiskJudge")
  else if specNonEmpty tr then (tr, "Trader")
  else (rf, "ResearchReferee")

/-- Spec-side decision payload, written from the spec's words: ticker copied
from the immutable input; `stance` from `source.stance` defaulting to
`"neutral"`; `decision` from `source.final_action`, else `source.decision`,
defaulting to `"hold"`; `rationale` from `source.rationale`, else
`source.summary`, defaulting to the empty string; `confidence` from
`source.confidence`, else the referee Result's confidence, defaulting to
`0.0`; and `source_persona` naming the chosen governance unit. -/
def specDecisionPayload (t : String) (A : Assoc) : Val :=
  let s := specSource A
  let source := s.1
  let referee := dgetD A "ResearchReferee" .null
  Val.dict
    [("ticker", Val.str t),
     ("stance", vgetD source "stance" (Val.str "neutral")),
     ("decision", pyOr (vget source "final_action")
        (vgetD source "decision" (Val.str "hold"))),
     ("rationale", pyOr (vget source "rationale")
        (vgetD source "summary" (Val.str ""))),
     ("confidence", vgetD source "confidence"
        (vgetD referee "confidence" (Val.num 0))),
     ("source_persona", Val.str s.2)]

/-- A canonical post-consolidation state carrying the immutable run inputs:
`ticker` plus the `analyses` map (the transient `a__*` slots are empty at
this point, so the raw-payload fallback of `finalize_decision` finds no
data). -/
def mkDecState (t : String) (A : Assoc) : Assoc :=
  [("ticker", Val.str t), ("analyses", Val.dict A)]

/-! ## The scheduler: `SimpleGraph`
(`tradingagents/langgraph/builder.py`.)  A node wraps a function over the
shared state and knows its downstream nodes.  Node functions may fail
(an escaping Python exception is modelled as `Except.error`), and may
return a non-dict (modelled as `none`), in which case `run` skips the
merge. -/

/-- A graph node: unique name, wrapped state function, downstream nodes
(`Node.connect` extends `next`; the pipeline below is built with the
connections already in place). -/
inductive Node where
  | mk (name : String) (func : Assoc → Except String (Option Assoc))
      (next : List Node)

/-- The node's unique name. -/
def Node.name : Node → String
  | .mk n _ _ => n

/-- The node's wrapped state function. -/
def Node.func : Node → (Assoc → Except String (Option Assoc))
  | .mk _ f _ => f

/-- The node's downstream nodes. -/
def Node.next : Node → List Node
  | .mk _ _ nx => nx

/-- The lightweight DAG executor: a name-keyed node registry plus the list
of entrypoints. -/
structure SimpleGraph where
  nodes : List (String × Node)
  entrypoints : List Node

/-- The empty graph (`SimpleGraph.__init__`). -/
def SimpleGraph.empty : SimpleGraph :=
  { nodes := [], entrypoints := [] }

/-- `SimpleGraph.add_node(node, entry)`: register a node under its name
(a plain dict write — `self.nodes[node.name] = node`), and append it to the
entrypoints when `entry` is set. -/
def SimpleGraph.add_node (g : SimpleGraph) (node : Node) (entry : Bool) :
    SimpleGraph :=
  { nodes := dictSet g.nodes node.name node,
    entrypoints := if entry then g.entrypoints ++ [node] else g.entrypoints }

/-- Python `name in seen` over the scheduler's seen-set (modelled as the
list of names added so far). -/
def pymem (s : String) : List String → Bool
  | [] => false
  | a :: rest => if a = s then true else pymem s rest

/-- The loop of `SimpleGraph.run`: pop the frontier head; skip it if already
seen; otherwise run its function (an escaping exception aborts the whole
run), shallow-merge a dict result into the shared state, and enqueue the
downstream nodes.  `fuel` bounds the iteration count (the Python loop
always terminates; every theorem below supplies sufficient fuel).  Besides
the final state, the embedding returns the trace of executed node names in
execution order — an observation of the run used to state the scheduling
claims. -/
def runAux (fuel : Nat) (frontier : List Node) (seen : List String)
    (state : Assoc) : Except String (Assoc × List String) :=
  match fuel, frontier with
  | _, [] => .ok (state, [])
  | 0, _ => .ok (state, [])
  | fuel + 1, node :: rest =>
    if pymem node.name seen then
      runAux fuel rest seen state
    else
      match node.func state with
      | .error e => .error e
      | .ok result =>
        let state' :=
          match result with
          | some d => update state d
          | none => state
        match runAux fuel (rest ++ node.next) (node.name :: seen) state' with
        | .error e => .error e
        | .ok (stateF, trace) => .ok (stateF, node.name :: trace)

/-- `SimpleGraph.run(state)`: execute nodes breadth-first from the
entrypoints and merge outputs into the shared state. -/
def SimpleGraph.run (g : SimpleGraph) (state : Assoc) (fuel : Nat) :
    Except String (Assoc × List String) :=
  runAux fuel g.entrypoints [] state

/-- The final state of a completed run (the input state if the run
aborted). -/
def runState (g : SimpleGraph) (state : Assoc) (fuel : Nat) : Assoc :=
  match g.run state fuel with
  | .ok (st, _) => st
  | .error _ => state

/-- The execution order of a completed run (empty if the run aborted). -/
def runTrace (g : SimpleGraph) (state : Assoc) (fuel : Nat) : List String :=
  match g.run state fuel with
  | .ok (_, tr) => tr
  | .error _ => []

/-! ## Persona response parsing
(`tradingagents/langgraph/personas/base_persona.py`,
`BasePersona._parse_response`.)  `json.loads` is passed in as an oracle:
`none` models a raised `JSONDecodeError`, `some v` a successful parse. -/

/-- `BasePersona._parse_response(text)`: best-effort JSON parsing with safe
fallback — empty text yields the neutral "No response" Result, a parse
failure or a non-dict parse yields a neutral Result whose summary is the
raw text. -/
def parse_response (jsonLoads : String → Option Val) (text : String) : Val :=
  let t := text.trim
  if t = "" then
    Val.dict [("stance", Val.str "neutral"), ("summary", Val.str "No response")]
  else
    match jsonLoads t with
    | some (Val.dict d) => Val.dict d
    | _ => Val.dict [("stance", Val.str "neutral"), ("summary", Val.str t)]

/-! ## The staged pipeline
Topology of `build_langgraph_pipeline`
(`tradingagents/langgraph/runner_langgraph.py`): `_fanout_stage` attaches
each stage's units downstream of the previous hub and joins them in a
consolidation hub, giving
Seed → evidence mappers → EvidenceHub → domain analysts → AnalystHub →
researchers → ResearchDebateHub → ResearchReferee → ConsensusHub →
RiskManager → RiskHub → Trader → TraderHub → RiskJudge → OversightHub →
FinalizeDecision → Consolidate.
The node behaviors are a parameter `F` assigning to each node name a total
state function (a unit that completes, possibly degraded; hubs instantiate
to `consolidate_state`, the decision desk to `finalize_decision`) — the
scheduling claims hold for every such assignment. -/

/-- A completed unit's behavior lifted to a node function: it never raises,
and returns `some delta` to be merged (or `none` for a non-dict return). -/
abbrev UnitFn := Assoc → Option Assoc

/-- Wrap a total behavior as a `Node` function. -/
def ok_fn (f : UnitFn) : Assoc → Except String (Option Assoc) :=
  fun st => .ok (f st)

/-- Build a pipeline node from the behavior assignment. -/
def pnode (F : String → UnitFn) (name : String) (next : List Node) : Node :=
  .mk name (ok_fn (F name)) next

def consolidateNode (F : String → UnitFn) : Node :=
  pnode F "Consolidate" []

def finalizeNode (F : String → UnitFn) : Node :=
  pnode F "FinalizeDecision" [consolidateNode F]

def oversightHub (F : String → UnitFn) : Node :=
  pnode F "OversightHub" [finalizeNode F]

def riskJudgeNode (F : String → UnitFn) : Node :=
  pnode F "RiskJudge" [oversightHub F]

def traderHub (F : String → UnitFn) : Node :=
  pnode F "TraderHub" [riskJudgeNode F]

def traderNode (F : String → UnitFn) : Node :=
  pnode F "Trader" [traderHub F]

def riskHub (F : String → UnitFn) : Node :=
  pnode F "RiskHub" [traderNode F]

def riskManagerNode (F : String → UnitFn) : Node :=
  pnode F "RiskManager" [riskHub F]

def consensusHub (F : String → UnitFn) : Node :=
  pnode F "ConsensusHub" [riskManagerNode F]

def researchRefereeNode (F : String → UnitFn) : Node :=
  pnode F "ResearchReferee" [consensusHub F]

def researchDebateHub (F : String → UnitFn) : Node :=
  pnode F "ResearchDebateHub" [researchRefereeNode F]

def bullResearcherNode (F : String → UnitFn) : Node :=
  pnode F "BullResearcher" [researchDebateHub F]

def bearResearcherNode (F : String → UnitFn) : Node :=
  pnode F "BearResearcher" [researchDebateHub F]

def analystHub (F : String → UnitFn) : Node :=
  pnode F "AnalystHub" [bullResearcherNode F, bearResearcherNode F]

def technicalNode (F : String → UnitFn) : Node :=
  pnode F "technical" [analystHub F]

def valuationNode (F : String → UnitFn) : Node :=
  pnode F "valuation" [analystHub F]

def eventNode (F : String → UnitFn) : Node :=
  pnode F "event" [analystHub F]

def macroAnalystNode (F : String → UnitFn) : Node :=
  pnode F "macro" [analystHub F]

def flowNode (F : String → UnitFn) : Node :=
  pnode F "flow" [analystHub F]

def evidenceHub (F : String → UnitFn) : Node :=
  pnode F "EvidenceHub"
    [technicalNode F, valuationNode F, eventNode F, macroAnalystNode F,
     flowNode F]

def marketMapperNode (F : String → UnitFn) : Node :=
  pnode F "MarketMapper" [evidenceHub F]

def fundamentalsMapperNode (F : String → UnitFn) : Node :=
  pnode F "FundamentalsMapper" [evidenceHub F]

def newsMapperNode (F : String → UnitFn) : Node :=
  pnode F "NewsMapper" [evidenceHub F]

def policyMapperNode (F : String → UnitFn) : Node :=
  pnode F "PolicyMapper" [evidenceHub F]

def macroMapperNode (F : String → UnitFn) : Node :=
  pnode F "MacroMapper" [evidenceHub F]

def seedNode (F : String → UnitFn) : Node :=
  pnode F "Seed"
    [marketMapperNode F, fundamentalsMapperNode F, newsMapperNode F,
     policyMapperNode F, macroMapperNode F]

/-- The staged pipeline as a `SimpleGraph`, entered at `Seed`. -/
def pipelineGraph (F : String → UnitFn) : SimpleGraph :=
  { nodes :=
      [seedNode F, marketMapperNode F, fundamentalsMapperNode F,
       newsMapperNode F, policyMapperNode F, macroMapperNode F,
       evidenceHub F, technicalNode F, valuationNode F, eventNode F,
       macroAnalystNode F, flowNode F, analystHub F, bullResearcherNode F,
       bearResearcherNode F, researchDebateHub F, researchRefereeNode F,
       consensusHub F, riskManagerNode F, riskHub F, traderNode F,
       traderHub F, riskJudgeNode F, oversightHub F, finalizeNode F,
       consolidateNode F].map (fun n => (n.name, n)),
    entrypoints := [seedNode F] }

/-- The evidence-ingestion stage's unit names (stage 1). -/
def evidenceUnits : List String :=
  ["MarketMapper", "FundamentalsMapper", "NewsMapper", "PolicyMapper",
   "MacroMapper"]

/-- The domain-analyst stage's unit names (stage 2). -/
def analystUnits : List String :=
  ["technical", "valuation", "event", "macro", "flow"]

/-- The research-debate stage's unit names (stage 3). -/
def debateUnits : List String :=
  ["BullResearcher", "BearResearcher"]

/-- The stage-sequential execution order of the staged pipeline: each
stage's units run as a block, followed by that stage's consolidation hub,
before any unit of the next stage. -/
def pipeSchedule : List String :=
  ["Seed"] ++ evidenceUnits ++ ["EvidenceHub"] ++ analystUnits ++
  ["AnalystHub"] ++ debateUnits ++
  ["ResearchDebateHub", "ResearchReferee", "ConsensusHub", "RiskManager",
   "RiskHub", "Trader", "TraderHub", "RiskJudge", "OversightHub",
   "FinalizeDecision", "Consolidate"]

/-- Apply one named unit's behavior to the state, merging a dict result —
the per-node step of a sequential, schedule-ordered execution. -/
def stepByName (F : String → UnitFn) (st : Assoc) (name : String) : Assoc :=
  match F name st with
  | some d => update st d
  | none => st

/-! ## Analysis of the consolidation loop
The loop's four accumulator components are computed by independent
functions of the state's item sequence; the bridges below relate them to
`consolidate_state`. -/

/-- The `data_sources` dict built by the loop, as a function of the item
sequence. -/
def dsFold : Assoc → Assoc → Assoc
  | [], ds => ds
  | kv :: rest, ds =>
    if hasTag "m__" kv.1 then dsFold rest (dictSet ds (stripTag kv.1) kv.2)
    else dsFold rest ds

/-- The `analyses` dict built by the loop, as a function of the item
sequence. -/
def anFold : Assoc → Assoc → Assoc
  | [], an => an
  | kv :: rest, an =>
    if hasTag "m__" kv.1 then anFold rest an
    else if hasTag "a__" kv.1 then
      anFold rest (dictSet an (stripTag kv.1) kv.2)
    else anFold rest an

/-- One state item's contribution to the accumulated prompt-token count:
non-zero only for an `a__*` Result carrying a truthy nested `usage`. -/
def promptContrib (kv : String × Val) : Int :=
  if hasTag "m__" kv.1 then 0
  else if hasTag "a__" kv.1 then
    match kv.2 with
    | .dict rv =>
      match aget? rv "usage" with
      | some usage =>
        if truthy usage then toInt (vgetD usage "prompt_tokens" (.num 0))
        else 0
      | none => 0
    | _ => 0
  else 0

/-- One state item's contribution to the accumulated completion-token
count. -/
def complContrib (kv : String × Val) : Int :=
  if hasTag "m__" kv.1 then 0
  else if hasTag "a__" kv.1 then
    match kv.2 with
    | .dict rv =>
      match aget? rv "usage" with
      | some usage =>
        if truthy usage then toInt (vgetD usage "completion_tokens" (.num 0))
        else 0
      | none => 0
    | _ => 0
  else 0

/-- Total prompt-token usage carried by a state's `a__*` slots. -/
def promptSum (st : Assoc) : Int :=
  (st.map promptContrib).sum

/-- Total completion-token usage carried by a state's `a__*` slots. -/
def complSum (st : Assoc) : Int :=
  (st.map complContrib).sum

/-- The state's current prompt-token counter,
`int(state.get("token_usage", {}).get("prompt", 0))`. -/
def promptTotal (st : Assoc) : Int :=
  toInt (vgetD (dgetD st "token_usage" (Val.dict [])) "prompt" (.num 0))

/-- The state's current completion-token counter. -/
def complTotal (st : Assoc) : Int :=
  toInt (vgetD (dgetD st "token_usage" (Val.dict [])) "completion" (.num 0))

/-! ## The transient sub-sequence of a state
The loop's outputs depend only on the `m__*`/`a__*` items, in order. -/

/-- The sub-sequence of a state's transient (`m__*`/`a__*`) items. -/
def maEntries (st : Assoc) : Assoc :=
  st.filter (fun kv => hasTag "m__" kv.1 || hasTag "a__" kv.1)

/-! ## Concrete states and graphs used to settle the claims -/

/-- A state holding one analysis Result with non-zero token usage (and a
zeroed `token_usage` baseline). -/
def cs3 : Assoc :=
  [("token_usage", Val.dict [("prompt", Val.num 0), ("completion", Val.num 0)]),
   ("a__P", Val.dict [("usage", Val.dict [("prompt_tokens", Val.num 1),
      ("completion_tokens", Val.num 2)])])]

/-- A state holding one non-empty transient evidence slot. -/
def cs6 : Assoc := [("m__market", Val.list [Val.str "e1"])]

/-- The `analyses` map of a state (empty when absent). -/
def analysesOf (st : Assoc) : Assoc :=
  match dgetD st "analyses" (Val.dict []) with
  | .dict a => a
  | _ => []

/-- Sum, over each Result in a state's `analyses`, of its nested
`usage.prompt_tokens` — the quantity the spec says the final `token_usage`
must equal. -/
def analysesPromptSum (st : Assoc) : Int :=
  ((analysesOf st).map
    (fun kv => toInt (vgetD (vgetD kv.2 "usage" (Val.dict []))
      "prompt_tokens" (Val.num 0)))).sum

/-- The `data_sources` map of `consolidate_state`'s output. -/
def consolidDS (st : Assoc) : Assoc :=
  match aget? (consolidate_state st) "data_sources" with
  | some (Val.dict d) => d
  | _ => []

/-- The `analyses` map of `consolidate_state`'s output. -/
def consolidAN (st : Assoc) : Assoc :=
  match aget? (consolidate_state st) "analyses" with
  | some (Val.dict d) => d
  | _ => []

/-- A Result carrying one prompt token of usage, under a given persona
slot. -/
def usageResult : Val :=
  Val.dict [("usage", Val.dict [("prompt_tokens", Val.num 1),
    ("completion_tokens", Val.num 0)])]

/-- Two-stage pipeline for the token-accounting counterexample:
persona `P` → consolidation `Hub1` → persona `Q` → consolidation `Hub2`. -/
def c4Hub2 : Node :=
  .mk "Hub2" (fun st => .ok (some (consolidate_state st))) []

def c4Q : Node :=
  .mk "Q" (fun _ => .ok (some [("a__Q", usageResult)])) [c4Hub2]

def c4Hub1 : Node :=
  .mk "Hub1" (fun st => .ok (some (consolidate_state st))) [c4Q]

def c4P : Node :=
  .mk "P" (fun _ => .ok (some [("a__P", usageResult)])) [c4Hub1]

def c4Graph : SimpleGraph :=
  { nodes := [("P", c4P), ("Hub1", c4Hub1), ("Q", c4Q), ("Hub2", c4Hub2)],
    entrypoints := [c4P] }

/-- The final state of the two-stage run. -/
def c4Final : Assoc := runState c4Graph [] 10

/-- A well-behaved downstream node (returns no delta). -/
def boomDownstream : Node := .mk "V" (fun _ => .ok none) []

/-- A unit whose function raises an unrecoverable exception. -/
def boomNode : Node := .mk "U" (fun _ => .error "boom") [boomDownstream]

/-- A graph whose entry unit fails and which has further work pending. -/
def boomGraph : SimpleGraph :=
  (SimpleGraph.empty.add_node boomDownstream false).add_node boomNode true

/-- First registration under the name `"X"`. -/
def dupFirst : Node := .mk "X" (fun _ => .ok none) []

/-- Second, distinct registration under the same name `"X"`. -/
def dupSecond : Node := .mk "X" (fun _ => .ok none) [dupFirst]

/-- A graph built by registering two distinct nodes with the same name. -/
def dupGraph : SimpleGraph :=
  (SimpleGraph.empty.add_node dupFirst false).add_node dupSecond false

/-- Fan-in target reachable from both entrypoints. -/
def dmC : Node := .mk "C" (fun _ => .ok none) []

def dmA : Node := .mk "A" (fun _ => .ok none) [dmC]

def dmB : Node := .mk "B" (fun _ => .ok none) [dmC]

/-- A diamond: `C` is enqueued by both `A` and `B`. -/
def diamondGraph : SimpleGraph :=
  { nodes := [("A", dmA), ("B", dmB), ("C", dmC)], entrypoints := [dmA, dmB] }

/-! ## Association-list and namespace-tag lemmas -/

theorem aget?_mem {α : Type} {d : List (String × α)} {k : String} {v : α}
    (h : aget? d k = some v) : (k, v) ∈ d := by
  induction d with
  | nil => simp [aget?] at h
  | cons kv rest ih =>
    obtain ⟨k', v'⟩ := kv
    by_cases hk : k' = k
    · subst hk
      simp only [aget?, if_pos] at h
      cases h
      exact List.mem_cons_self _ _
    · simp only [aget?, hk, if_false] at h
      exact List.mem_cons_of_mem _ (ih h)

theorem aget?_append {α : Type} (l₁ l₂ : List (String × α)) (k : String) :
    aget? (l₁ ++ l₂) k =
      match aget? l₁ k with
      | some v => some v
      | none => aget? l₂ k := by
  induction l₁ with
  | nil => simp [aget?]
  | cons kv rest ih =>
    obtain ⟨k', v'⟩ := kv
    by_cases hk : k' = k <;> simp [aget?, hk, ih]

theorem aget?_map_replace {α : Type} {d : List (String × α)} (k : String)
    (v : α) :
    aget? (d.map (fun kv => if kv.1 = k then (k, v) else kv)) k =
      match aget? d k with
      | some _ => some v
      | none => none := by
  induction d with
  | nil => simp [aget?]
  | cons kv rest ih =>
    obtain ⟨k₀, v₀⟩ := kv
    rw [List.map_cons]
    by_cases hk : k₀ = k
    · subst hk
      rw [show (if ((k₀, v₀) : String × α).1 = k₀ then (k₀, v) else (k₀, v₀)) =
          (k₀, v) from if_pos rfl]
      simp [aget?]
    · rw [show (if ((k₀, v₀) : String × α).1 = k then (k, v) else (k₀, v₀)) =
          (k₀, v₀) from if_neg hk]
      simp [aget?, hk, ih]

theorem aget?_map_replace_ne {α : Type} {d : List (String × α)}
    {k k' : String} (v : α) (h : k' ≠ k) :
    aget? (d.map (fun kv => if kv.1 = k' then (k', v) else kv)) k =
      aget? d k := by
  induction d with
  | nil => simp [aget?]
  | cons kv rest ih =>
    obtain ⟨k₀, v₀⟩ := kv
    rw [List.map_cons]
    by_cases hk : k₀ = k'
    · subst hk
      rw [show (if ((k₀, v₀) : String × α).1 = k₀ then (k₀, v) else (k₀, v₀)) =
          (k₀, v) from if_pos rfl]
      simp [aget?, h, ih]
    · rw [show (if ((k₀, v₀) : String × α).1 = k' then (k', v) else (k₀, v₀)) =
          (k₀, v₀) from if_neg hk]
      by_cases hk2 : k₀ = k <;> simp [aget?, hk2, ih]

theorem aget?_dictSet_self {α : Type} (d : List (String × α)) (k : String)
    (v : α) : aget? (dictSet d k v) k = some v := by
  unfold dictSet
  cases hd : aget? d k with
  | some w => rw [aget?_map_replace, hd]
  | none => rw [aget?_append, hd]; simp [aget?]

theorem aget?_dictSet_ne {α : Type} (d : List (String × α)) {k k' : String}
    (v : α) (h : k' ≠ k) : aget? (dictSet d k' v) k = aget? d k := by
  unfold dictSet
  cases hd : aget? d k' with
  | some w => rw [aget?_map_replace_ne _ h]
  | none =>
    rw [aget?_append]
    have : aget? [(k', v)] k = none := by simp [aget?, h]
    cases hk : aget? d k <;> simp [hk, this]

theorem aget?_update_notin {st delta : Assoc} {k : String}
    (h : ∀ kv ∈ delta, kv.1 ≠ k) : aget? (update st delta) k = aget? st k := by
  induction delta generalizing st with
  | nil => rfl
  | cons kv rest ih =>
    have h1 : kv.1 ≠ k := h kv (List.mem_cons_self _ _)
    have h2 : ∀ kv' ∈ rest, kv'.1 ≠ k := fun kv' hm => h kv' (List.mem_cons_of_mem _ hm)
    show aget? (update (dictSet st kv.1 kv.2) rest) k = aget? st k
    rw [ih h2, aget?_dictSet_ne _ _ h1]

theorem update_append (st l₁ l₂ : Assoc) :
    update st (l₁ ++ l₂) = update (update st l₁) l₂ :=
  List.foldl_append _ _ _ _

theorem aget?_some_ne_nil {α : Type} {d : List (String × α)} {k : String}
    {v : α} (h : aget? d k = some v) : d.isEmpty = false := by
  cases d with
  | nil => simp [aget?] at h
  | cons kv rest => rfl

/-! Namespace-tag facts: a key carrying the three-character tag decomposes
as tag followed by its `stripTag`, the two tags are mutually exclusive, and
`stripTag` is injective on keys carrying the same tag. -/

theorem hasTag_m_decomp {k : String} (h : hasTag "m__" k = true) :
    k.data = 'm' :: '_' :: '_' :: k.data.drop 3 := by
  unfold hasTag at h
  have hpre : ("m__".data : List Char) <+: k.data :=
    List.isPrefixOf_iff_prefix.mp h
  obtain ⟨t, ht⟩ := hpre
  have hm : ("m__".data : List Char) = ['m', '_', '_'] := rfl
  rw [hm] at ht
  have hdrop : k.data.drop 3 = t := by
    rw [← ht]
    exact List.drop_left ['m', '_', '_'] t
  rw [hdrop, ← ht]
  rfl

theorem hasTag_a_decomp {k : String} (h : hasTag "a__" k = true) :
    k.data = 'a' :: '_' :: '_' :: k.data.drop 3 := by
  unfold hasTag at h
  have hpre : ("a__".data : List Char) <+: k.data :=
    List.isPrefixOf_iff_prefix.mp h
  obtain ⟨t, ht⟩ := hpre
  have ha : ("a__".data : List Char) = ['a', '_', '_'] := rfl
  rw [ha] at ht
  have hdrop : k.data.drop 3 = t := by
    rw [← ht]
    exact List.drop_left ['a', '_', '_'] t
  rw [hdrop, ← ht]
  rfl

theorem hasTag_a_not_m {k : String} (h : hasTag "a__" k = true) :
    hasTag "m__" k = false := by
  have hd := hasTag_a_decomp h
  unfold hasTag
  rw [hd]
  rfl

theorem stripTag_inj_m {k₁ k₂ : String} (h₁ : hasTag "m__" k₁ = true)
    (h₂ : hasTag "m__" k₂ = true) (h : stripTag k₁ = stripTag k₂) :
    k₁ = k₂ := by
  have hd₁ := hasTag_m_decomp h₁
  have hd₂ := hasTag_m_decomp h₂
  have hdrop : k₁.data.drop 3 = k₂.data.drop 3 := congrArg String.data h
  have : k₁.data = k₂.data := by rw [hd₁, hd₂, hdrop]
  cases k₁; cases k₂; cases this; rfl

theorem stripTag_inj_a {k₁ k₂ : String} (h₁ : hasTag "a__" k₁ = true)
    (h₂ : hasTag "a__" k₂ = true) (h : stripTag k₁ = stripTag k₂) :
    k₁ = k₂ := by
  have hd₁ := hasTag_a_decomp h₁
  have hd₂ := hasTag_a_decomp h₂
  have hdrop : k₁.data.drop 3 = k₂.data.drop 3 := congrArg String.data h
  have : k₁.data = k₂.data := by rw [hd₁, hd₂, hdrop]
  cases k₁; cases k₂; cases this; rfl

theorem consStep_ds (acc : ConsAcc) (kv : String × Val) :
    (consStep acc kv).ds =
      if hasTag "m__" kv.1 then dictSet acc.ds (stripTag kv.1) kv.2
      else acc.ds := by
  obtain ⟨k₀, v₀⟩ := kv
  unfold consStep
  by_cases hm : hasTag "m__" k₀ = true
  · simp [hm]
  · simp only [Bool.not_eq_true] at hm
    by_cases ha : hasTag "a__" k₀ = true
    · simp only [hm, ha, Bool.false_eq_true, if_false, if_true]
      cases v₀ with
      | dict rv =>
        cases hu : aget? rv "usage" with
        | some usage =>
          by_cases ht : truthy usage = true <;> simp [hu, ht]
        | none => simp [hu]
      | null => rfl
      | bool b => rfl
      | num n => rfl
      | str s => rfl
      | list xs => rfl
    · simp only [Bool.not_eq_true] at ha
      simp [hm, ha]

theorem consStep_an (acc : ConsAcc) (kv : String × Val) :
    (consStep acc kv).an =
      if hasTag "m__" kv.1 then acc.an
      else if hasTag "a__" kv.1 then dictSet acc.an (stripTag kv.1) kv.2
      else acc.an := by
  obtain ⟨k₀, v₀⟩ := kv
  unfold consStep
  by_cases hm : hasTag "m__" k₀ = true
  · simp [hm]
  · simp only [Bool.not_eq_true] at hm
    by_cases ha : hasTag "a__" k₀ = true
    · simp only [hm, ha, Bool.false_eq_true, if_false, if_true]
      cases v₀ with
      | dict rv =>
        cases hu : aget? rv "usage" with
        | some usage =>
          by_cases ht : truthy usage = true <;> simp [hu, ht]
        | none => simp [hu]
      | null => rfl
      | bool b => rfl
      | num n => rfl
      | str s => rfl
      | list xs => rfl
    · simp only [Bool.not_eq_true] at ha
      simp [hm, ha]

theorem consStep_p (acc : ConsAcc) (kv : String × Val) :
    (consStep acc kv).p = acc.p + promptContrib kv := by
  obtain ⟨k₀, v₀⟩ := kv
  unfold consStep promptContrib
  by_cases hm : hasTag "m__" k₀ = true
  · simp [hm]
  · simp only [Bool.not_eq_true] at hm
    by_cases ha : hasTag "a__" k₀ = true
    · simp only [hm, ha, Bool.false_eq_true, if_false, if_true]
      cases v₀ with
      | dict rv =>
        cases hu : aget? rv "usage" with
        | some usage =>
          by_cases ht : truthy usage = true <;> simp [hu, ht]
        | none => simp [hu]
      | null => simp
      | bool b => simp
      | num n => simp
      | str s => simp
      | list xs => simp
    · simp only [Bool.not_eq_true] at ha
      simp [hm, ha]

theorem consStep_c (acc : ConsAcc) (kv : String × Val) :
    (consStep acc kv).c = acc.c + complContrib kv := by
  obtain ⟨k₀, v₀⟩ := kv
  unfold consStep complContrib
  by_cases hm : hasTag "m__" k₀ = true
  · simp [hm]
  · simp only [Bool.not_eq_true] at hm
    by_cases ha : hasTag "a__" k₀ = true
    · simp only [hm, ha, Bool.false_eq_true, if_false, if_true]
      cases v₀ with
      | dict rv =>
        cases hu : aget? rv "usage" with
        | some usage =>
          by_cases ht : truthy usage = true <;> simp [hu, ht]
        | none => simp [hu]
      | null => simp
      | bool b => simp
      | num n => simp
      | str s => simp
      | list xs => simp
    · simp only [Bool.not_eq_true] at ha
      simp [hm, ha]

theorem foldl_consStep_ds (st : Assoc) :
    ∀ acc : ConsAcc, (st.foldl consStep acc).ds = dsFold st acc.ds := by
  induction st with
  | nil => intro acc; rfl
  | cons kv rest ih =>
    intro acc
    show (rest.foldl consStep (consStep acc kv)).ds = dsFold (kv :: rest) acc.ds
    rw [ih, consStep_ds]
    by_cases hm : hasTag "m__" kv.1 = true <;> simp [dsFold, hm]

theorem foldl_consStep_an (st : Assoc) :
    ∀ acc : ConsAcc, (st.foldl consStep acc).an = anFold st acc.an := by
  induction st with
  | nil => intro acc; rfl
  | cons kv rest ih =>
    intro acc
    show (rest.foldl consStep (consStep acc kv)).an = anFold (kv :: rest) acc.an
    rw [ih, consStep_an]
    by_cases hm : hasTag "m__" kv.1 = true
    · simp [anFold, hm]
    · by_cases ha : hasTag "a__" kv.1 = true <;>
        simp [anFold, hm, ha]

theorem foldl_consStep_p (st : Assoc) :
    ∀ acc : ConsAcc, (st.foldl consStep acc).p = acc.p + promptSum st := by
  induction st with
  | nil => intro acc; simp [promptSum]
  | cons kv rest ih =>
    intro acc
    show (rest.foldl consStep (consStep acc kv)).p = acc.p + promptSum (kv :: rest)
    rw [ih, consStep_p]
    simp [promptSum]
    ring

theorem foldl_consStep_c (st : Assoc) :
    ∀ acc : ConsAcc, (st.foldl consStep acc).c = acc.c + complSum st := by
  induction st with
  | nil => intro acc; simp [complSum]
  | cons kv rest ih =>
    intro acc
    show (rest.foldl consStep (consStep acc kv)).c = acc.c + complSum (kv :: rest)
    rw [ih, consStep_c]
    simp [complSum]
    ring

theorem dsFold_stable (st : Assoc) : ∀ (ds : Assoc) (s : String),
    (∀ kv ∈ st, hasTag "m__" kv.1 = true → stripTag kv.1 ≠ s) →
    aget? (dsFold st ds) s = aget? ds s := by
  induction st with
  | nil => intro ds s _; rfl
  | cons kv rest ih =>
    intro ds s h
    simp only [dsFold]
    by_cases hm : hasTag "m__" kv.1 = true
    · rw [if_pos hm,
        ih _ s (fun kv' h' ht => h kv' (List.mem_cons_of_mem _ h') ht)]
      exact aget?_dictSet_ne _ _ (h kv (List.mem_cons_self _ _) hm)
    · rw [if_neg hm]
      exact ih _ s (fun kv' h' ht => h kv' (List.mem_cons_of_mem _ h') ht)

theorem dsFold_found (st : Assoc) : ∀ (ds : Assoc) (k : String) (v : Val),
    aget? st k = some v → hasTag "m__" k = true →
    (st.map Prod.fst).Nodup →
    aget? (dsFold st ds) (stripTag k) = some v := by
  induction st with
  | nil => intro ds k v h _ _; simp [aget?] at h
  | cons kv rest ih =>
    intro ds k v h hm hnd
    obtain ⟨k₀, v₀⟩ := kv
    simp only [List.map_cons, List.nodup_cons] at hnd
    by_cases hk : k₀ = k
    · subst hk
      have hv : v₀ = v := by simpa [aget?] using h
      subst hv
      simp only [dsFold]
      rw [if_pos hm]
      rw [dsFold_stable rest _ _ ?_]
      · exact aget?_dictSet_self _ _ _
      · intro kv' hmem ht heq
        exact hnd.1 (List.mem_map.mpr ⟨kv', hmem,
          (stripTag_inj_m ht hm heq) ▸ rfl⟩)
    · have h' : aget? rest k = some v := by simpa [aget?, hk] using h
      simp only [dsFold]
      by_cases hm0 : hasTag "m__" k₀ = true
      · rw [if_pos hm0]; exact ih _ _ _ h' hm hnd.2
      · rw [if_neg hm0]; exact ih _ _ _ h' hm hnd.2

theorem anFold_stable (st : Assoc) : ∀ (an : Assoc) (s : String),
    (∀ kv ∈ st, hasTag "a__" kv.1 = true → stripTag kv.1 ≠ s) →
    aget? (anFold st an) s = aget? an s := by
  induction st with
  | nil => intro an s _; rfl
  | cons kv rest ih =>
    intro an s h
    simp only [anFold]
    by_cases hm : hasTag "m__" kv.1 = true
    · rw [if_pos hm]
      exact ih _ s (fun kv' h' ht => h kv' (List.mem_cons_of_mem _ h') ht)
    · rw [if_neg hm]
      by_cases ha : hasTag "a__" kv.1 = true
      · rw [if_pos ha,
          ih _ s (fun kv' h' ht => h kv' (List.mem_cons_of_mem _ h') ht)]
        exact aget?_dictSet_ne _ _ (h kv (List.mem_cons_self _ _) ha)
      · rw [if_neg ha]
        exact ih _ s (fun kv' h' ht => h kv' (List.mem_cons_of_mem _ h') ht)

theorem anFold_found (st : Assoc) : ∀ (an : Assoc) (k : String) (v : Val),
    aget? st k = some v → hasTag "a__" k = true →
    (st.map Prod.fst).Nodup →
    aget? (anFold st an) (stripTag k) = some v := by
  induction st with
  | nil => intro an k v h _ _; simp [aget?] at h
  | cons kv rest ih =>
    intro an k v h ha hnd
    obtain ⟨k₀, v₀⟩ := kv
    simp only [List.map_cons, List.nodup_cons] at hnd
    by_cases hk : k₀ = k
    · subst hk
      have hv : v₀ = v := by simpa [aget?] using h
      subst hv
      simp only [anFold]
      rw [if_neg (by rw [hasTag_a_not_m ha]; exact Bool.false_ne_true),
        if_pos ha]
      rw [anFold_stable rest _ _ ?_]
      · exact aget?_dictSet_self _ _ _
      · intro kv' hmem ht heq
        exact hnd.1 (List.mem_map.mpr ⟨kv', hmem,
          (stripTag_inj_a ht ha heq) ▸ rfl⟩)
    · have h' : aget? rest k = some v := by simpa [aget?, hk] using h
      simp only [anFold]
      by_cases hm0 : hasTag "m__" k₀ = true
      · rw [if_pos hm0]; exact ih _ _ _ h' ha hnd.2
      · rw [if_neg hm0]
        by_cases ha0 : hasTag "a__" k₀ = true
        · rw [if_pos ha0]; exact ih _ _ _ h' ha hnd.2
        · rw [if_neg ha0]; exact ih _ _ _ h' ha hnd.2

theorem dsFold_eq_ma (st : Assoc) : ∀ ds : Assoc,
    dsFold st ds = dsFold (maEntries st) ds := by
  induction st with
  | nil => intro ds; rfl
  | cons kv rest ih =>
    intro ds
    simp only [maEntries, List.filter_cons] at *
    by_cases hm : hasTag "m__" kv.1 = true
    · simp only [dsFold, hm, Bool.true_or, if_true, if_pos]
      exact ih _
    · by_cases ha : hasTag "a__" kv.1 = true
      · simp only [dsFold, hm, ha, Bool.false_eq_true, if_false,
          Bool.false_or, if_true, if_pos]
        exact ih _
      · simp only [dsFold, hm, ha, Bool.false_eq_true, if_false,
          Bool.false_or, Bool.or_self]
        exact ih _

theorem anFold_eq_ma (st : Assoc) : ∀ an : Assoc,
    anFold st an = anFold (maEntries st) an := by
  induction st with
  | nil => intro an; rfl
  | cons kv rest ih =>
    intro an
    simp only [maEntries, List.filter_cons] at *
    by_cases hm : hasTag "m__" kv.1 = true
    · simp only [anFold, hm, Bool.true_or, if_true, if_pos]
      exact ih _
    · by_cases ha : hasTag "a__" kv.1 = true
      · simp only [anFold, hm, ha, Bool.false_eq_true, if_false,
          Bool.false_or, if_true, if_pos]
        exact ih _
      · simp only [anFold, hm, ha, Bool.false_eq_true, if_false,
          Bool.false_or, Bool.or_self]
        exact ih _

theorem promptContrib_nonma {kv : String × Val}
    (hm : hasTag "m__" kv.1 = false) (ha : hasTag "a__" kv.1 = false) :
    promptContrib kv = 0 := by
  simp [promptContrib, hm, ha]

theorem complContrib_nonma {kv : String × Val}
    (hm : hasTag "m__" kv.1 = false) (ha : hasTag "a__" kv.1 = false) :
    complContrib kv = 0 := by
  simp [complContrib, hm, ha]

theorem promptSum_eq_ma (st : Assoc) :
    promptSum st = promptSum (maEntries st) := by
  induction st with
  | nil => rfl
  | cons kv rest ih =>
    simp only [maEntries, List.filter_cons] at *
    by_cases hm : hasTag "m__" kv.1 = true
    · simpa [promptSum, hm] using ih
    · by_cases ha : hasTag "a__" kv.1 = true
      · simpa [promptSum, hm, ha] using ih
      · have hm' : hasTag "m__" kv.1 = false := by simpa using hm
        have ha' : hasTag "a__" kv.1 = false := by simpa using ha
        simp only [promptSum, List.map_cons, List.sum_cons, hm', ha',
          Bool.or_self, Bool.false_eq_true, if_false,
          promptContrib_nonma hm' ha', zero_add]
        exact ih

theorem complSum_eq_ma (st : Assoc) :
    complSum st = complSum (maEntries st) := by
  induction st with
  | nil => rfl
  | cons kv rest ih =>
    simp only [maEntries, List.filter_cons] at *
    by_cases hm : hasTag "m__" kv.1 = true
    · simpa [complSum, hm] using ih
    · by_cases ha : hasTag "a__" kv.1 = true
      · simpa [complSum, hm, ha] using ih
      · have hm' : hasTag "m__" kv.1 = false := by simpa using hm
        have ha' : hasTag "a__" kv.1 = false := by simpa using ha
        simp only [complSum, List.map_cons, List.sum_cons, hm', ha',
          Bool.or_self, Bool.false_eq_true, if_false,
          complContrib_nonma hm' ha', zero_add]
        exact ih

theorem maEntries_map_replace {k : String} (v : Val) (st : Assoc)
    (hm : hasTag "m__" k = false) (ha : hasTag "a__" k = false) :
    maEntries (st.map (fun kv => if kv.1 = k then (k, v) else kv)) =
      maEntries st := by
  induction st with
  | nil => rfl
  | cons kv rest ih =>
    obtain ⟨k₀, v₀⟩ := kv
    rw [List.map_cons]
    by_cases hk : k₀ = k
    · subst hk
      rw [show (if ((k₀, v₀) : String × Val).1 = k₀ then (k₀, v)
          else (k₀, v₀)) = (k₀, v) from if_pos rfl]
      simp only [maEntries, List.filter_cons, hm, ha, Bool.or_self,
        Bool.false_eq_true, if_false] at *
      exact ih
    · rw [show (if ((k₀, v₀) : String × Val).1 = k then (k, v)
          else (k₀, v₀)) = (k₀, v₀) from if_neg hk]
      simp only [maEntries, List.filter_cons] at *
      by_cases hp : (hasTag "m__" k₀ || hasTag "a__" k₀) = true
      · simp [hp, ih]
      · simp [hp, ih]

theorem maEntries_dictSet_nonma {k : String} (v : Val) (st : Assoc)
    (hm : hasTag "m__" k = false) (ha : hasTag "a__" k = false) :
    maEntries (dictSet st k v) = maEntries st := by
  unfold dictSet
  cases hd : aget? st k with
  | some w => exact maEntries_map_replace v st hm ha
  | none =>
    unfold maEntries
    rw [List.filter_append]
    simp [hm, ha]

theorem maEntries_update_nonma (delta : Assoc) : ∀ st : Assoc,
    (∀ kv ∈ delta, hasTag "m__" kv.1 = false ∧ hasTag "a__" kv.1 = false) →
    maEntries (update st delta) = maEntries st := by
  induction delta with
  | nil => intro st _; rfl
  | cons kv rest ih =>
    intro st h
    show maEntries (update (dictSet st kv.1 kv.2) rest) = maEntries st
    rw [ih _ (fun kv' h' => h kv' (List.mem_cons_of_mem _ h'))]
    exact maEntries_dictSet_nonma _ _
      (h kv (List.mem_cons_self _ _)).1 (h kv (List.mem_cons_self _ _)).2

/-! ## Shape of `consolidate_state`'s output -/

theorem consolidate_ds_lookup (st : Assoc) :
    aget? (consolidate_state st) "data_sources" =
      if (dsFold st []).isEmpty then none
      else some (Val.dict (dsFold st [])) := by
  unfold consolidate_state
  rw [aget?_append, aget?_append]
  rw [show (st.foldl consStep
      { ds := [], an := [],
        p := toInt (vgetD (dgetD st "token_usage" (Val.dict [])) "prompt"
          (.num 0)),
        c := toInt (vgetD (dgetD st "token_usage" (Val.dict []))
          "completion" (.num 0)) }).ds = dsFold st [] from
    foldl_consStep_ds st _]
  cases hd : (dsFold st []).isEmpty
  · simp only [Bool.false_eq_true, if_false, aget?, if_pos]
  · simp only [if_true, aget?]
    cases han : ((st.foldl consStep
        { ds := [], an := [],
          p := toInt (vgetD (dgetD st "token_usage" (Val.dict [])) "prompt"
            (.num 0)),
          c := toInt (vgetD (dgetD st "token_usage" (Val.dict []))
            "completion" (.num 0)) }).an).isEmpty <;>
      simp [aget?]

theorem consolidate_state_eq (st : Assoc) :
    consolidate_state st =
      (if (dsFold st []).isEmpty then []
       else [("data_sources", Val.dict (dsFold st []))]) ++
      (if (anFold st []).isEmpty then []
       else [("analyses", Val.dict (anFold st []))]) ++
      [("token_usage", Val.dict
        [("prompt", Val.num (promptTotal st + promptSum st)),
         ("completion", Val.num (complTotal st + complSum st))])] := by
  simp only [consolidate_state]
  rw [foldl_consStep_ds, foldl_consStep_an, foldl_consStep_p,
    foldl_consStep_c]
  rfl

theorem consolidate_an_lookup (st : Assoc) :
    aget? (consolidate_state st) "analyses" =
      if (anFold st []).isEmpty then none
      else some (Val.dict (anFold st [])) := by
  rw [consolidate_state_eq, aget?_append, aget?_append]
  cases hd : (dsFold st []).isEmpty <;>
    cases ha : (anFold st []).isEmpty <;> simp [aget?]

theorem consolidate_tu_lookup (st : Assoc) :
    aget? (consolidate_state st) "token_usage" =
      some (Val.dict [("prompt", Val.num (promptTotal st + promptSum st)),
        ("completion", Val.num (complTotal st + complSum st))]) := by
  rw [consolidate_state_eq, aget?_append, aget?_append]
  cases hd : (dsFold st []).isEmpty <;>
    cases ha : (anFold st []).isEmpty <;> simp [aget?]

theorem consolidate_promptTotal (st : Assoc) :
    promptTotal (consolidate_state st) = promptTotal st + promptSum st := by
  simp [promptTotal, dgetD, consolidate_tu_lookup, vgetD, aget?, toInt]

theorem consolidate_complTotal (st : Assoc) :
    complTotal (consolidate_state st) = complTotal st + complSum st := by
  simp [complTotal, dgetD, consolidate_tu_lookup, vgetD, aget?, toInt]

theorem consolidate_keys (st : Assoc) : ∀ kv ∈ consolidate_state st,
    kv.1 = "data_sources" ∨ kv.1 = "analyses" ∨ kv.1 = "token_usage" := by
  intro kv hkv
  rw [consolidate_state_eq] at hkv
  rcases List.mem_append.mp hkv with h | h
  · rcases List.mem_append.mp h with h1 | h1
    · by_cases hd : (dsFold st []).isEmpty = true
      · rw [if_pos hd] at h1; cases h1
      · rw [if_neg hd] at h1
        simp only [List.mem_singleton] at h1
        subst h1; left; rfl
    · by_cases ha : (anFold st []).isEmpty = true
      · rw [if_pos ha] at h1; cases h1
      · rw [if_neg ha] at h1
        simp only [List.mem_singleton] at h1
        subst h1; right; left; rfl
  · simp only [List.mem_singleton] at h
    subst h; right; right; rfl

theorem consolidate_no_ma (st : Assoc) : ∀ kv ∈ consolidate_state st,
    hasTag "m__" kv.1 = false ∧ hasTag "a__" kv.1 = false := by
  intro kv hkv
  rcases consolidate_keys st kv hkv with h | h | h <;> rw [h] <;>
    exact ⟨rfl, rfl⟩

theorem update_singleton (st : Assoc) (k : String) (v : Val) :
    update st [(k, v)] = dictSet st k v := rfl

theorem tu_after_merge (st : Assoc) :
    aget? (update st (consolidate_state st)) "token_usage" =
      some (Val.dict [("prompt", Val.num (promptTotal st + promptSum st)),
        ("completion", Val.num (complTotal st + complSum st))]) := by
  rw [consolidate_state_eq, update_append, update_append, update_singleton]
  exact aget?_dictSet_self _ _ _

theorem promptTotal_after_merge (st : Assoc) :
    promptTotal (update st (consolidate_state st)) =
      promptTotal st + promptSum st := by
  simp [promptTotal, dgetD, tu_after_merge, vgetD, aget?, toInt]

theorem complTotal_after_merge (st : Assoc) :
    complTotal (update st (consolidate_state st)) =
      complTotal st + complSum st := by
  simp [complTotal, dgetD, tu_after_merge, vgetD, aget?, toInt]

/-! ## Scheduler lemmas -/

theorem pymem_false_head {s a : String} {rest : List String}
    (h : pymem s (a :: rest) = false) : a ≠ s ∧ pymem s rest = false := by
  by_cases ha : a = s
  · simp [pymem, ha] at h
  · exact ⟨ha, by simpa [pymem, ha] using h⟩

theorem runAux_nodup (fuel : Nat) : ∀ (frontier : List Node)
    (seen : List String) (st stF : Assoc) (tr : List String),
    runAux fuel frontier seen st = .ok (stF, tr) →
    tr.Nodup ∧ ∀ x ∈ tr, pymem x seen = false := by
  induction fuel with
  | zero =>
    intro fr seen st stF tr h
    cases fr with
    | nil =>
      simp only [runAux, Except.ok.injEq, Prod.mk.injEq] at h
      obtain ⟨-, h2⟩ := h
      subst h2
      exact ⟨List.nodup_nil, by simp⟩
    | cons node rest =>
      simp only [runAux, Except.ok.injEq, Prod.mk.injEq] at h
      obtain ⟨-, h2⟩ := h
      subst h2
      exact ⟨List.nodup_nil, by simp⟩
  | succ f ih =>
    intro fr seen st stF tr h
    cases fr with
    | nil =>
      simp only [runAux, Except.ok.injEq, Prod.mk.injEq] at h
      obtain ⟨-, h2⟩ := h
      subst h2
      exact ⟨List.nodup_nil, by simp⟩
    | cons node rest =>
      rw [runAux] at h
      by_cases hmem : pymem node.name seen = true
      · rw [if_pos hmem] at h
        exact ih rest seen st stF tr h
      · have hmem' : pymem node.name seen = false := by
          simpa using hmem
        rw [if_neg hmem] at h
        cases hf : node.func st with
        | error e => rw [hf] at h; cases h
        | ok result =>
          rw [hf] at h
          simp only at h
          generalize hst : (match result with
            | some d => update st d
            | none => st) = st' at h
          cases hr : runAux f (rest ++ node.next) (node.name :: seen)
              st' with
          | error e => rw [hr] at h; cases h
          | ok p =>
            obtain ⟨st'', tr'⟩ := p
            rw [hr] at h
            simp only [Except.ok.injEq, Prod.mk.injEq] at h
            obtain ⟨-, h2⟩ := h
            subst h2
            obtain ⟨hnd, hseen⟩ := ih _ _ _ _ _ hr
            refine ⟨List.nodup_cons.mpr ⟨?_, hnd⟩, ?_⟩
            · intro hx
              exact (pymem_false_head (hseen node.name hx)).1 rfl
            · intro x hx
              rcases List.mem_cons.mp hx with rfl | hx'
              · exact hmem'
              · exact (pymem_false_head (hseen x hx')).2

/-! ## Bridging lemmas for the decision synthesizer -/

theorem fallbackStep_noop {state : Assoc} {key : String} (an : Assoc)
    (h : rawSlot state ("a__" ++ key) = none ∨
         rawSlot state ("a__" ++ key) = some (Val.dict [])) :
    fallbackStep state an key = an := by
  unfold fallbackStep
  rcases h with h | h <;> rw [h] <;> simp [truthy]

theorem foldl_fixed {α β : Type} (f : α → β → α) (l : List β)
    (h : ∀ (a : α) (b : β), b ∈ l → f a b = a) : ∀ a, l.foldl f a = a := by
  induction l with
  | nil => intro a; rfl
  | cons b rest ih =>
    intro a
    rw [List.foldl_cons, h a b (List.mem_cons_self _ _)]
    exact ih (fun a' b' hb => h a' b' (List.mem_cons_of_mem _ hb)) a

theorem fallback_noop_mkDec (t : String) (A : Assoc) : ∀ an : Assoc,
    fallbackKeys.foldl (fallbackStep (mkDecState t A)) an = an := by
  apply foldl_fixed
  intro an key hkey
  fin_cases hkey
  · exact fallbackStep_noop an (Or.inr rfl)
  · exact fallbackStep_noop an (Or.inl rfl)
  · exact fallbackStep_noop an (Or.inl rfl)
  · exact fallbackStep_noop an (Or.inr rfl)
  · exact fallbackStep_noop an (Or.inr rfl)
  · exact fallbackStep_noop an (Or.inl rfl)
  · exact fallbackStep_noop an (Or.inl rfl)
  · exact fallbackStep_noop an (Or.inl rfl)
  · exact fallbackStep_noop an (Or.inl rfl)
  · exact fallbackStep_noop an (Or.inl rfl)
  · exact fallbackStep_noop an (Or.inl rfl)

theorem shapeOf {A : Assoc} (hA : ∀ kv ∈ A, isDictVal kv.2 = true)
    (k : String) :
    dgetD A k .null = .null ∨ ∃ d, dgetD A k .null = Val.dict d := by
  unfold dgetD
  cases h : aget? A k with
  | none => left; rfl
  | some v =>
    right
    have hd := hA (k, v) (aget?_mem h)
    cases v with
    | dict d => exact ⟨d, rfl⟩
    | null => simp [isDictVal] at hd
    | bool b => simp [isDictVal] at hd
    | num n => simp [isDictVal] at hd
    | str s => simp [isDictVal] at hd
    | list xs => simp [isDictVal] at hd

theorem truthy_pyOr_empty {v : Val}
    (h : v = .null ∨ ∃ d, v = Val.dict d) :
    truthy (pyOr v (Val.dict [])) = specNonEmpty v := by
  rcases h with rfl | ⟨d, rfl⟩
  · rfl
  · cases d <;> rfl

theorem vgetD_pyOr_empty {v : Val}
    (h : v = .null ∨ ∃ d, v = Val.dict d) (k : String) (dflt : Val) :
    vgetD (pyOr v (Val.dict [])) k dflt = vgetD v k dflt := by
  rcases h with rfl | ⟨d, rfl⟩
  · rfl
  · cases d <;> rfl

theorem vget_pyOr_empty {v : Val}
    (h : v = .null ∨ ∃ d, v = Val.dict d) (k : String) :
    vget (pyOr v (Val.dict [])) k = vget v k := by
  rcases h with rfl | ⟨d, rfl⟩
  · rfl
  · cases d <;> rfl

theorem pyOr_pyOr_empty {v : Val}
    (h : v = .null ∨ ∃ d, v = Val.dict d) (b : Val) :
    pyOr (pyOr v (Val.dict [])) b =
      if specNonEmpty v then v else b := by
  rcases h with rfl | ⟨d, rfl⟩
  · rfl
  · cases d <;> rfl

theorem finalize_eq_spec (t : String) (A : Assoc)
    (hA : ∀ kv ∈ A, isDictVal kv.2 = true) :
    finalize_decision (mkDecState t A) =
      [("decision", specDecisionPayload t A)] := by
  have hrj := shapeOf hA "RiskJudge"
  have htr := shapeOf hA "Trader"
  have hrf := shapeOf hA "ResearchReferee"
  simp only [finalize_decision]
  rw [show (match dgetD (mkDecState t A) "analyses" (Val.dict []) with
      | Val.dict a => a
      | _ => ([] : Assoc)) = A from rfl]
  rw [fallback_noop_mkDec]
  rw [show dgetD (mkDecState t A) "ticker" (Val.str "") = Val.str t from rfl]
  simp only [specDecisionPayload, specSource]
  rw [pyOr_pyOr_empty hrj, pyOr_pyOr_empty htr]
  rw [truthy_pyOr_empty hrj, truthy_pyOr_empty htr]
  rw [vgetD_pyOr_empty hrf]
  by_cases b1 : specNonEmpty (dgetD A "RiskJudge" Val.null) = true
  · simp [b1]
  · simp only [b1, Bool.false_eq_true, if_false]
    by_cases b2 : specNonEmpty (dgetD A "Trader" Val.null) = true
    · simp [b2]
    · simp only [b2, Bool.false_eq_true, if_false]
      rw [vgetD_pyOr_empty hrf, vgetD_pyOr_empty hrf, vgetD_pyOr_empty hrf,
        vgetD_pyOr_empty hrf, vget_pyOr_empty hrf, vget_pyOr_empty hrf]

/-! ## The claims -/

/-- Claim C1: on every canonical state carrying the immutable run inputs
(`ticker` plus `analyses`, whose governance entries are Result maps),
`finalize_decision` examines `analyses["RiskJudge"]`, `analyses["Trader"]`,
`analyses["ResearchReferee"]` in that precedence order, takes the first
non-empty one as source, and returns the payload with `ticker` copied from
the state, `stance` defaulting to `"neutral"`, `decision` from
`source.final_action` else `source.decision` defaulting to `"hold"`,
`rationale` from `source.rationale` else `source.summary` defaulting to
`""`, `confidence` from `source.confidence` else the referee's confidence
defaulting to `0.0`, and `source_persona` naming the chosen governance
unit; the function is deterministic and total by construction.  The second
conjunct is the spec's concrete scenario. -/
theorem C1_decision_synthesizer :
    (∀ (t : String) (A : Assoc), (∀ kv ∈ A, isDictVal kv.2 = true) →
      finalize_decision (mkDecState t A) =
        [("decision", specDecisionPayload t A)]) ∧
    finalize_decision (mkDecState "AAPL"
        [("RiskJudge", Val.dict []),
         ("Trader", Val.dict [("decision", Val.str "buy"),
            ("stance", Val.str "bull"),
            ("rationale", Val.str "momentum")])]) =
      [("decision", Val.dict
        [("ticker", Val.str "AAPL"), ("stance", Val.str "bull"),
         ("decision", Val.str "buy"), ("rationale", Val.str "momentum"),
         ("confidence", Val.num 0),
         ("source_persona", Val.str "Trader")])] :=
  ⟨finalize_eq_spec, rfl⟩

/-- Witness for C1: the refinement instantiated at a concrete analyses
map. -/
theorem C1_witness :
    finalize_decision (mkDecState "AAPL"
        [("Trader", Val.dict [("stance", Val.str "bull")])]) =
      [("decision", specDecisionPayload "AAPL"
        [("Trader", Val.dict [("stance", Val.str "bull")])])] :=
  C1_decision_synthesizer.1 "AAPL" _ (by decide)

/-- Claim C2, counterexample: a unit whose function raises does NOT get a
synthetic neutral Result substituted — the whole run aborts with the
exception (so no note is appended and no `analyses` entry exists). -/
theorem C2_counterexample : boomGraph.run [] 10 = Except.error "boom" := rfl

/-- Claim C2, amended: when the scheduler reaches an unseen unit whose
function raises an unrecoverable exception, `SimpleGraph.run` propagates
the exception and aborts the run; no synthetic neutral Result is
substituted and no audit note is appended. -/
theorem C2_unit_failure_aborts_run (fuel : Nat) (node : Node)
    (rest : List Node) (seen : List String) (st : Assoc) (e : String)
    (h1 : pymem node.name seen = false) (h2 : node.func st = .error e) :
    runAux (fuel + 1) (node :: rest) seen st = .error e := by
  rw [runAux, if_neg (by rw [h1]; exact Bool.false_ne_true), h2]

/-- Witness for C2's amended theorem at a concrete failing unit. -/
theorem C2_witness : runAux 5 [boomNode] [] [] = Except.error "boom" :=
  C2_unit_failure_aborts_run 4 boomNode [] [] [] "boom" rfl rfl

/-- Claim C3, counterexample: consolidation is not idempotent — re-running
it on the merged state with the transient slots still present accumulates
the token usage a second time. -/
theorem C3_counterexample :
    consolidate_state (update cs3 (consolidate_state cs3)) ≠
      consolidate_state cs3 := by
  intro h
  have h2 := congrArg promptTotal h
  rw [show promptTotal
      (consolidate_state (update cs3 (consolidate_state cs3))) = 2 from rfl,
    show promptTotal (consolidate_state cs3) = 1 from rfl] at h2
  exact absurd h2 (by decide)

/-- Claim C3, amended: consolidation is idempotent on the collections —
re-running it on the merged state yields the same `data_sources` and
`analyses` — but not on `token_usage`, which is accumulated again (the
second application adds the stage's usage sums a second time), so full
idempotence holds only when the transient slots carry zero usage. -/
theorem C3_idempotent_on_collections_not_usage : ∀ st : Assoc,
    aget? (consolidate_state (update st (consolidate_state st)))
        "data_sources" =
      aget? (consolidate_state st) "data_sources" ∧
    aget? (consolidate_state (update st (consolidate_state st)))
        "analyses" =
      aget? (consolidate_state st) "analyses" ∧
    promptTotal (consolidate_state (update st (consolidate_state st))) =
      promptTotal (consolidate_state st) + promptSum st ∧
    complTotal (consolidate_state (update st (consolidate_state st))) =
      complTotal (consolidate_state st) + complSum st := by
  intro st
  have hma : maEntries (update st (consolidate_state st)) = maEntries st :=
    maEntries_update_nonma _ st (consolidate_no_ma st)
  have hds : dsFold (update st (consolidate_state st)) [] = dsFold st [] := by
    rw [dsFold_eq_ma, hma, ← dsFold_eq_ma]
  have han : anFold (update st (consolidate_state st)) [] = anFold st [] := by
    rw [anFold_eq_ma, hma, ← anFold_eq_ma]
  have hps : promptSum (update st (consolidate_state st)) = promptSum st := by
    rw [promptSum_eq_ma, hma, ← promptSum_eq_ma]
  have hcs : complSum (update st (consolidate_state st)) = complSum st := by
    rw [complSum_eq_ma, hma, ← complSum_eq_ma]
  refine ⟨?_, ?_, ?_, ?_⟩
  · rw [consolidate_ds_lookup, consolidate_ds_lookup, hds]
  · rw [consolidate_an_lookup, consolidate_an_lookup, han]
  · rw [consolidate_promptTotal, consolidate_promptTotal,
      promptTotal_after_merge, hps]
  · rw [consolidate_complTotal, consolidate_complTotal,
      complTotal_after_merge, hcs]

/-- Claim C4, counterexample: over a completed two-stage run (persona `P`,
consolidation, persona `Q`, consolidation), the final `token_usage` prompt
total is 3, while the sum of the moved analyses Results' nested
`usage.prompt_tokens` is 2 — the totals do not equal the per-Result sum,
because transient slots are never cleared and are re-counted by every later
consolidation. -/
theorem C4_counterexample :
    promptTotal c4Final = 3 ∧ analysesPromptSum c4Final = 2 ∧
    promptTotal c4Final ≠ analysesPromptSum c4Final :=
  ⟨rfl, rfl, by decide⟩

/-- Claim C4, amended: a single consolidation adds exactly the sum of the
usage carried by the `a__*` slots present in the state to the running
counters (so a one-stage run from a zero baseline yields exactly the
per-Result sum), and that sum is order-independent — permuting the state's
items leaves both totals unchanged, since integer addition is
commutative. -/
theorem C4_token_usage_accumulation :
    (∀ st : Assoc,
      promptTotal (consolidate_state st) = promptTotal st + promptSum st ∧
      complTotal (consolidate_state st) = complTotal st + complSum st) ∧
    (∀ l₁ l₂ : Assoc, l₁.Perm l₂ →
      promptSum l₁ = promptSum l₂ ∧ complSum l₁ = complSum l₂) :=
  ⟨fun st => ⟨consolidate_promptTotal st, consolidate_complTotal st⟩,
   fun _ _ h => ⟨(h.map promptContrib).sum_eq, (h.map complContrib).sum_eq⟩⟩

/-- Witness for C4's order-independence at a concrete permutation. -/
theorem C4_witness :
    promptSum [("a__P", usageResult), ("a__Q", usageResult)] =
      promptSum [("a__Q", usageResult), ("a__P", usageResult)] ∧
    complSum [("a__P", usageResult), ("a__Q", usageResult)] =
      complSum [("a__Q", usageResult), ("a__P", usageResult)] :=
  C4_token_usage_accumulation.2 _ _
    (List.Perm.swap ("a__Q", usageResult) ("a__P", usageResult) [])

/-- Claim C5: `consolidate_state` moves every transient evidence slot
`m__<type>` into `data_sources[<type>]` and every transient analysis slot
`a__<persona>` into `analyses[<persona>]`; and on the spec's concrete
scenario (`m__market = [e1, e2]`, `m__fundamentals = [e3]`) the
consolidated `data_sources` is exactly
`{"market": [e1, e2], "fundamentals": [e3]}`. -/
theorem C5_consolidation_moves_slots :
    (∀ (st : Assoc) (k : String) (v : Val),
      (st.map Prod.fst).Nodup → aget? st k = some v →
      hasTag "m__" k = true →
      aget? (consolidDS st) (stripTag k) = some v) ∧
    (∀ (st : Assoc) (k : String) (v : Val),
      (st.map Prod.fst).Nodup → aget? st k = some v →
      hasTag "a__" k = true →
      aget? (consolidAN st) (stripTag k) = some v) ∧
    (∀ e1 e2 e3 : Val,
      aget? (consolidate_state
          [("m__market", Val.list [e1, e2]),
           ("m__fundamentals", Val.list [e3])]) "data_sources" =
        some (Val.dict [("market", Val.list [e1, e2]),
          ("fundamentals", Val.list [e3])])) := by
  refine ⟨?_, ?_, fun e1 e2 e3 => rfl⟩
  · intro st k v hnd h hm
    have hf := dsFold_found st [] k v h hm hnd
    have hne := aget?_some_ne_nil hf
    unfold consolidDS
    rw [consolidate_ds_lookup, hne]
    simpa using hf
  · intro st k v hnd h ha
    have hf := anFold_found st [] k v h ha hnd
    have hne := aget?_some_ne_nil hf
    unfold consolidAN
    rw [consolidate_an_lookup, hne]
    simpa using hf

/-- Witness for C5 at a concrete one-slot state. -/
theorem C5_witness :
    aget? (consolidDS [("m__market", Val.list [Val.str "x"])]) "market" =
      some (Val.list [Val.str "x"]) :=
  C5_consolidation_moves_slots.1 [("m__market", Val.list [Val.str "x"])]
    "m__market" (Val.list [Val.str "x"]) (by decide) rfl rfl

/-- Claim C6, counterexample: after consolidation (output merged into the
state), the consumed transient slot `m__market` is still present and
non-empty — it is not cleared. -/
theorem C6_counterexample :
    aget? (update cs6 (consolidate_state cs6)) "m__market" =
      some (Val.list [Val.str "e1"]) ∧
    truthy (Val.list [Val.str "e1"]) = true := ⟨rfl, rfl⟩

/-- Claim C6, amended: the Consolidation Step does not clear the transient
slots it consumed.  Its output writes only the canonical keys
(`data_sources`, `analyses`, `token_usage`), so merging it into the state
leaves every `m__*`/`a__*` slot in place with its value — later stages do
observe stage-N transients. -/
theorem C6_transient_slots_not_cleared :
    (∀ st : Assoc, ∀ kv ∈ consolidate_state st,
      kv.1 = "data_sources" ∨ kv.1 = "analyses" ∨ kv.1 = "token_usage") ∧
    (∀ (st : Assoc) (k : String) (v : Val),
      aget? st k = some v →
      hasTag "m__" k = true ∨ hasTag "a__" k = true →
      aget? (update st (consolidate_state st)) k = some v) := by
  refine ⟨consolidate_keys, ?_⟩
  intro st k v h htag
  have hne : ∀ kv ∈ consolidate_state st, kv.1 ≠ k := by
    intro kv hkv heq
    rcases consolidate_keys st kv hkv with h1 | h1 | h1 <;>
      (rw [heq] at h1; subst h1;
       rcases htag with ht | ht <;> exact absurd ht (by decide))
  rw [aget?_update_notin hne]
  exact h

/-- Witness for C6's amended theorem at a concrete state. -/
theorem C6_witness :
    aget? (update cs6 (consolidate_state cs6)) "m__market" =
      some (Val.list [Val.str "e1"]) :=
  C6_transient_slots_not_cleared.2 cs6 "m__market" (Val.list [Val.str "e1"])
    rfl (Or.inl rfl)

/-- Claim C7: on the staged pipeline (the topology `_fanout_stage` builds in
`build_langgraph_pipeline`), for every assignment of completing unit
behaviors and every initial state, the executor runs the nodes in exactly
the stage-sequential order — each stage's units as a block, then that
stage's consolidation hub, before any unit of the next stage — and the
final state is the left fold of the per-node merges in that order, so every
stage-N+1 unit observes the post-consolidation state of stage N. -/
theorem C7_stage_barrier (F : String → UnitFn) (st : Assoc) :
    runTrace (pipelineGraph F) st 100 = pipeSchedule ∧
    runState (pipelineGraph F) st 100 =
      pipeSchedule.foldl (stepByName F) st :=
  ⟨rfl, rfl⟩

/-- Claim C8, counterexample: registering a second, distinct node under an
already-used name raises no error — `add_node` silently overwrites the
earlier registration (the registry now maps `"X"` to the later node). -/
theorem C8_counterexample :
    aget? dupGraph.nodes "X" = some dupSecond ∧ dupSecond ≠ dupFirst :=
  ⟨rfl, fun h => by
    have h2 := congrArg (fun n => n.next.length) h
    simp [dupFirst, dupSecond, Node.next] at h2⟩

/-- Claim C8, amended: `add_node` never raises on duplicates; registering
two nodes with the same name makes the later registration win in the node
registry (a plain dict overwrite). -/
theorem C8_add_node_overwrites (g : SimpleGraph) (n₁ n₂ : Node)
    (e₁ e₂ : Bool) (h : n₁.name = n₂.name) :
    aget? ((g.add_node n₁ e₁).add_node n₂ e₂).nodes n₁.name = some n₂ := by
  rw [h]
  exact aget?_dictSet_self _ _ _

/-- Witness for C8's amended theorem at a concrete duplicate pair. -/
theorem C8_witness :
    aget? ((SimpleGraph.empty.add_node dupFirst false).add_node dupSecond
      false).nodes "X" = some dupSecond :=
  C8_add_node_overwrites SimpleGraph.empty dupFirst dupSecond false false rfl

/-- Claim C9: `_parse_response` is total and recovers locally — on empty
text it returns the neutral "No response" Result, and whenever the
reasoning service's text does not parse as a JSON object (parse failure or
non-object parse), it returns a Result with `stance = "neutral"` and a
string `summary`; no exception propagates. -/
theorem C9_parse_response_recovers :
    ∀ (jsonLoads : String → Option Val) (text : String),
      (text.trim = "" →
        parse_response jsonLoads text =
          Val.dict [("stance", Val.str "neutral"),
            ("summary", Val.str "No response")]) ∧
      ((∀ d : List (String × Val), jsonLoads text.trim ≠ some (Val.dict d)) →
        vget (parse_response jsonLoads text) "stance" = Val.str "neutral" ∧
        ∃ s : String,
          vget (parse_response jsonLoads text) "summary" = Val.str s) := by
  intro jl text
  constructor
  · intro ht
    simp [parse_response, ht]
  · intro hnd
    unfold parse_response
    by_cases ht : text.trim = ""
    · rw [if_pos ht]
      exact ⟨rfl, "No response", rfl⟩
    · rw [if_neg ht]
      cases hjl : jl text.trim with
      | none => exact ⟨rfl, text.trim, rfl⟩
      | some v =>
        cases v with
        | dict d => exact absurd hjl (hnd d)
        | null => exact ⟨rfl, text.trim, rfl⟩
        | bool b => exact ⟨rfl, text.trim, rfl⟩
        | num n => exact ⟨rfl, text.trim, rfl⟩
        | str s => exact ⟨rfl, text.trim, rfl⟩
        | list xs => exact ⟨rfl, text.trim, rfl⟩

/-- Witness for C9 at a concrete non-JSON response with a failing parse. -/
theorem C9_witness :
    vget (parse_response (fun _ => none) "oops") "stance" =
      Val.str "neutral" ∧
    ∃ s : String,
      vget (parse_response (fun _ => none) "oops") "summary" = Val.str s :=
  (C9_parse_response_recovers (fun _ => none) "oops").2
    (fun _ h => Option.noConfusion h)

/-- Claim C10: on every graph and initial state, a completed
`SimpleGraph.run` executes each node at most once — the execution trace has
no duplicate names, because fan-in re-enqueues are skipped via the seen
set. -/
theorem C10_nodes_execute_at_most_once (fuel : Nat) (g : SimpleGraph)
    (st stF : Assoc) (tr : List String)
    (h : g.run st fuel = .ok (stF, tr)) : tr.Nodup :=
  (runAux_nodup fuel g.entrypoints [] st stF tr h).1

/-- Witness for C10 on the fan-in diamond: `C` is enqueued by both parents
and still executes exactly once. -/
theorem C10_witness : (["A", "B", "C"] : List String).Nodup :=
  C10_nodes_execute_at_most_once 10 diamondGraph [] [] ["A", "B", "C"] rfl

end TA
